import Mathlib

/-!
Verification development for the `repository_prisma` library.

The library provides an implicit-transaction programming model for Prisma:
an `AsyncLocalStorage` context carrier holding the active transaction client
(`src/lib/context.ts`), a client resolver (`src/lib/prisma-manager.ts`),
a `BaseRepository` with model-name inference (`src/lib/base-repository.ts`),
a `@Transactional` method decorator (`src/lib/decorators.ts`), and a factory
(`src/lib/repository-factory.ts`).

The embedding below translates each of these into Lean. The ambient
`AsyncLocalStorage` store is represented functionally as an explicit
`Option` value threaded to each operation (the value `prismaContext.getStore()`
would return at that point); the Prisma engine is represented by an explicit
state (committed effects, effects pending in the currently open transaction,
and a count of `$transaction` calls that reached the engine).
-/

namespace RepositoryPrisma

/-! ### String helpers

Translations of the JS string operations used by
`BaseRepository.resolveModelName` (`charAt(0).toLowerCase() + slice(1)`,
`endsWith('Repository')`, `slice(0, -'Repository'.length)`), implemented over
the underlying character list so concrete instances evaluate in the kernel.
-/

/-- JS `s.charAt(0).toLowerCase() + s.slice(1)`. On the empty string,
`charAt(0)` is `""` and `slice(1)` is `""`, so the result is `""`. -/
def lowerFirst (s : String) : String :=
  match s.data with
  | [] => ""
  | c :: cs => String.mk (Char.toLower c :: cs)

/-- JS `s.endsWith(suffix)`. -/
def strEndsWith (s suffix : String) : Bool :=
  List.isSuffixOf suffix.data s.data

/-- JS `s.slice(0, -n)` for `n > 0`: drop the last `n` characters. -/
def strDropEnd (s : String) (n : Nat) : String :=
  String.mk (s.data.take (s.data.length - n))

/-! ### Context carrier and client resolver

From `src/lib/context.ts` and `src/lib/prisma-manager.ts`. Transaction
clients are identified by a `Nat`; the ambient `AsyncLocalStorage` store at a
given point is an `Option Nat` passed explicitly.
-/

/-- A Prisma client handle: either the root client or a transaction client. -/
inductive Client where
  | root
  | tx (t : Nat)
deriving DecidableEq, Repr

/-- Source `getTransactionClient` (`context.ts`): returns
`prismaContext.getStore()`, i.e. the ambient store value. -/
def getTransactionClient (ctx : Option Nat) : Option Nat :=
  ctx

/-- Source `getPrismaClient` (`prisma-manager.ts`): the transaction client
from the context if one is set, otherwise the root client. -/
def getPrismaClient (ctx : Option Nat) : Client :=
  match getTransactionClient ctx with
  | some t => Client.tx t
  | none => Client.root

/-! ### Base repository

From `src/lib/base-repository.ts`. A delegate (per-model sub-resource of a
client) is modelled by its five CRUD operations; arguments and engine results
are abstracted as `Nat`, engine errors as `Except.error`. A client is a map
from model names to optional delegates; the environment supplies that map for
the root client and for every transaction client.
-/

/-- The per-model sub-resource of a Prisma client: its CRUD methods.
Each takes the call arguments and returns the engine result or error. -/
structure ModelDelegate where
  create : Nat → Except Nat Nat
  findUnique : Nat → Except Nat Nat
  findMany : Option Nat → Except Nat Nat
  update : Nat → Except Nat Nat
  delete : Nat → Except Nat Nat

/-- The delegates exposed by each client in the running process: property
lookup `client[modelName]`, which is `undefined` (`none`) when the client has
no such model. -/
structure PrismaEnv where
  root : String → Option ModelDelegate
  txc : Nat → String → Option ModelDelegate

/-- Property lookup on a resolved client. -/
def clientDelegates (env : PrismaEnv) : Client → String → Option ModelDelegate
  | Client.root => env.root
  | Client.tx t => env.txc t

/-- A `BaseRepository` instance: the optional explicitly configured
`modelName` and the runtime class name `this.constructor.name`. -/
structure BaseRepository where
  modelName : Option String
  className : String

/-- The inference part of `resolveModelName`:
`className.endsWith('Repository') ? className.slice(0, -'Repository'.length) : className`,
then `inferred.charAt(0).toLowerCase() + inferred.slice(1)`. -/
def inferredModelName (className : String) : String :=
  let inferred :=
    if strEndsWith className ("Repository") then strDropEnd className 10
    else className
  lowerFirst inferred

/-- Source `BaseRepository.resolveModelName`: `if (this.modelName) return
this.modelName;` — a JS truthiness test, so an absent name and the (untypable
in TS) empty string both fall through to inference from the class name. -/
def BaseRepository.resolveModelName (r : BaseRepository) : String :=
  match r.modelName with
  | some n => if n = "" then inferredModelName r.className else n
  | none => inferredModelName r.className

/-- The configuration error message thrown by the `delegate` getter. -/
def unknownModelMessage (modelName className : String) : String :=
  "Unknown Prisma model '" ++ modelName ++ "' for " ++ className ++
    ". Set modelName explicitly on the repository."

/-- Source `BaseRepository.delegate` getter: resolve the current client via
`getPrismaClient()`, resolve the model name, look the delegate up on the
client, and throw the configuration error when it is absent. -/
def BaseRepository.delegate (r : BaseRepository) (env : PrismaEnv)
    (ctx : Option Nat) : Except String ModelDelegate :=
  let client := clientDelegates env (getPrismaClient ctx)
  let modelName := r.resolveModelName
  match client modelName with
  | none => Except.error (unknownModelMessage modelName r.className)
  | some d => Except.ok d

/-- Source `BaseRepository.create`: `(this.delegate as any).create(args)`.
The outer `Except String` is the thrown configuration error; the inner value
is the delegate's own result or error, forwarded unchanged. -/
def BaseRepository.create (r : BaseRepository) (env : PrismaEnv)
    (ctx : Option Nat) (args : Nat) : Except String (Except Nat Nat) :=
  match r.delegate env ctx with
  | Except.error e => Except.error e
  | Except.ok d => Except.ok (d.create args)

/-- Source `BaseRepository.findUnique`. -/
def BaseRepository.findUnique (r : BaseRepository) (env : PrismaEnv)
    (ctx : Option Nat) (args : Nat) : Except String (Except Nat Nat) :=
  match r.delegate env ctx with
  | Except.error e => Except.error e
  | Except.ok d => Except.ok (d.findUnique args)

/-- Source `BaseRepository.findMany`; its argument is optional. -/
def BaseRepository.findMany (r : BaseRepository) (env : PrismaEnv)
    (ctx : Option Nat) (args : Option Nat) : Except String (Except Nat Nat) :=
  match r.delegate env ctx with
  | Except.error e => Except.error e
  | Except.ok d => Except.ok (d.findMany args)

/-- Source `BaseRepository.update`. -/
def BaseRepository.update (r : BaseRepository) (env : PrismaEnv)
    (ctx : Option Nat) (args : Nat) : Except String (Except Nat Nat) :=
  match r.delegate env ctx with
  | Except.error e => Except.error e
  | Except.ok d => Except.ok (d.update args)

/-- Source `BaseRepository.delete`. -/
def BaseRepository.delete (r : BaseRepository) (env : PrismaEnv)
    (ctx : Option Nat) (args : Nat) : Except String (Except Nat Nat) :=
  match r.delegate env ctx with
  | Except.error e => Except.error e
  | Except.ok d => Except.ok (d.delete args)

/-- Modelled from the spec: `BaseRepository.forModel` is called by
`defineRepository` (`src/lib/repository-factory.ts`) and documented in the
README and design document, but its implementation is not under `src/`.
Per the spec ("a factory that binds a repository to an explicit entity name
without subclassing") and the design document ("Model name mapped from
`Models.User` -> `user`"), it returns a repository base whose `modelName` is
the explicitly given Prisma model name, uncapitalized; the class name of the
eventual concrete class is supplied by the subclass that extends the result. -/
def BaseRepository.forModel (modelName : String) (className : String) :
    BaseRepository :=
  ⟨some (lowerFirst modelName), className⟩

/-- Source `defineRepository` (`repository-factory.ts`): delegates to
`BaseRepository.forModel`. -/
def defineRepository (modelName : String) : String → BaseRepository :=
  BaseRepository.forModel modelName

/-! ### Sample environments used by witnesses -/

/-- A concrete delegate used to exercise dispatch on concrete inputs. -/
def sampleDelegate : ModelDelegate :=
  ⟨fun a => Except.ok a, fun a => Except.ok (a + 1), fun _ => Except.ok 0,
    fun a => Except.ok a, fun a => Except.error a⟩

/-- A concrete environment whose root client exposes exactly the model
named by the string of length four u-s-e-r. -/
def sampleEnv : PrismaEnv :=
  ⟨fun n => if n = "user" then some sampleDelegate else none, fun _ _ => none⟩

/-- An environment exposing no model on any client. -/
def emptyEnv : PrismaEnv :=
  ⟨fun _ => none, fun _ _ => none⟩

/-- C4: the Client Resolver returns the transaction client stored in the
ambient context when one is present, and otherwise the root client; as a
total Lean function of the context state it is pure, synchronous, and never
throws. -/
theorem getPrismaClient_resolves_context :
    (∀ t : Nat, getPrismaClient (some t) = Client.tx t)
    ∧ getPrismaClient none = Client.root :=
  ⟨fun _ => rfl, rfl⟩

/-- C5: every `BaseRepository` CRUD method resolves the current client via
`getPrismaClient` at the moment of the call, looks the delegate matching the
resolved model name up on that client, throws the configuration error when
the delegate is absent, and otherwise forwards the arguments unchanged and
returns the delegate result or error unchanged. -/
theorem baseRepository_dispatch (env : PrismaEnv) (ctx : Option Nat)
    (r : BaseRepository) :
    (clientDelegates env (getPrismaClient ctx) r.resolveModelName = none →
      ∀ (args : Nat) (oargs : Option Nat),
        r.create env ctx args
            = Except.error (unknownModelMessage r.resolveModelName r.className)
        ∧ r.findUnique env ctx args
            = Except.error (unknownModelMessage r.resolveModelName r.className)
        ∧ r.findMany env ctx oargs
            = Except.error (unknownModelMessage r.resolveModelName r.className)
        ∧ r.update env ctx args
            = Except.error (unknownModelMessage r.resolveModelName r.className)
        ∧ r.delete env ctx args
            = Except.error (unknownModelMessage r.resolveModelName r.className))
    ∧ ∀ d : ModelDelegate,
        clientDelegates env (getPrismaClient ctx) r.resolveModelName = some d →
        ∀ (args : Nat) (oargs : Option Nat),
          r.create env ctx args = Except.ok (d.create args)
          ∧ r.findUnique env ctx args = Except.ok (d.findUnique args)
          ∧ r.findMany env ctx oargs = Except.ok (d.findMany oargs)
          ∧ r.update env ctx args = Except.ok (d.update args)
          ∧ r.delete env ctx args = Except.ok (d.delete args) := by
  constructor
  · intro h args oargs
    refine ⟨?_, ?_, ?_, ?_, ?_⟩ <;>
      simp [BaseRepository.create, BaseRepository.findUnique,
        BaseRepository.findMany, BaseRepository.update, BaseRepository.delete,
        BaseRepository.delegate, h]
  · intro d h args oargs
    refine ⟨?_, ?_, ?_, ?_, ?_⟩ <;>
      simp [BaseRepository.create, BaseRepository.findUnique,
        BaseRepository.findMany, BaseRepository.update, BaseRepository.delete,
        BaseRepository.delegate, h]

/-- Witness for C5: concrete dispatch through a root client exposing the
inferred model of `UserRepository`. -/
theorem baseRepository_dispatch_witness :
    BaseRepository.create ⟨none, "UserRepository"⟩ sampleEnv none 5
        = Except.ok (Except.ok 5)
    ∧ BaseRepository.delete ⟨none, "UserRepository"⟩ sampleEnv none 7
        = Except.ok (Except.error 7) := by
  have h : clientDelegates sampleEnv (getPrismaClient none)
      (BaseRepository.resolveModelName ⟨none, "UserRepository"⟩)
        = some sampleDelegate := by rfl
  have hd := (baseRepository_dispatch sampleEnv none ⟨none, "UserRepository"⟩).2
    sampleDelegate h 5 none
  have hd7 := (baseRepository_dispatch sampleEnv none ⟨none, "UserRepository"⟩).2
    sampleDelegate h 7 none
  exact ⟨hd.1, hd7.2.2.2.2⟩

/-- C7: an explicitly configured model name always takes precedence over
inference; with no explicit name the model name is inferred from the class
name, and a repository class named `UserRepository` infers the model name
`user`. -/
theorem resolveModelName_precedence :
    (∀ cn n : String, n ≠ "" →
        BaseRepository.resolveModelName ⟨some n, cn⟩ = n)
    ∧ (∀ cn : String,
        BaseRepository.resolveModelName ⟨none, cn⟩ = inferredModelName cn)
    ∧ BaseRepository.resolveModelName ⟨none, "UserRepository"⟩ = "user" := by
  refine ⟨fun cn n hn => ?_, fun cn => rfl, by decide⟩
  simp [BaseRepository.resolveModelName, hn]

/-- Witness for C7: an explicit name wins even when the class name would
infer a different one. -/
theorem resolveModelName_precedence_witness :
    BaseRepository.resolveModelName ⟨some ("member"), ("UserRepository")⟩
      = "member" :=
  resolveModelName_precedence.1 ("UserRepository") ("member") (by decide)

/-- C8: `defineRepository`, delegating to `BaseRepository.forModel`, binds a
repository base to the explicitly given model name, yielding a working
repository without a hand-written name: its resolved model name is the
uncapitalized given name, and CRUD dispatch succeeds on any client exposing
that model. -/
theorem defineRepository_binds_explicit_name (name cn : String)
    (h : lowerFirst name ≠ "") :
    (defineRepository name cn).resolveModelName = lowerFirst name
    ∧ ∀ (env : PrismaEnv) (ctx : Option Nat) (d : ModelDelegate) (args : Nat),
        clientDelegates env (getPrismaClient ctx) (lowerFirst name) = some d →
          (defineRepository name cn).create env ctx args
            = Except.ok (d.create args) := by
  have h1 : (defineRepository name cn).resolveModelName = lowerFirst name := by
    simp [defineRepository, BaseRepository.forModel,
      BaseRepository.resolveModelName, h]
  refine ⟨h1, fun env ctx d args h2 => ?_⟩
  simp [BaseRepository.create, BaseRepository.delegate, h1, h2]

/-- Witness for C8: a repository built by `defineRepository` for the model
name `User` dispatches `create` through the `user` delegate. -/
theorem defineRepository_binds_explicit_name_witness :
    (defineRepository ("User") ("CustomUsers")).create sampleEnv none 9
      = Except.ok (Except.ok 9) := by
  have h : clientDelegates sampleEnv (getPrismaClient none) (lowerFirst ("User"))
      = some sampleDelegate := by rfl
  exact (defineRepository_binds_explicit_name ("User") ("CustomUsers")
    (by decide)).2 sampleEnv none sampleDelegate 9 h

/-- C10: when no explicit model name is configured and the class name does
not end with `Repository`, inference strips nothing and only lower-cases the
first character; no error is raised at inference time, and the configuration
error surfaces later, at a CRUD call, as an unknown-delegate failure. -/
theorem inference_without_suffix (cn : String)
    (h : strEndsWith cn ("Repository") = false) :
    BaseRepository.resolveModelName ⟨none, cn⟩ = lowerFirst cn
    ∧ ∀ (env : PrismaEnv) (ctx : Option Nat) (args : Nat),
        clientDelegates env (getPrismaClient ctx) (lowerFirst cn) = none →
          BaseRepository.create ⟨none, cn⟩ env ctx args
            = Except.error (unknownModelMessage (lowerFirst cn) cn) := by
  have h1 : BaseRepository.resolveModelName ⟨none, cn⟩ = lowerFirst cn := by
    simp [BaseRepository.resolveModelName, inferredModelName, h]
  refine ⟨h1, fun env ctx args h2 => ?_⟩
  simp [BaseRepository.create, BaseRepository.delegate, h1, h2]

/-- Witness for C10: the class name `UserStore` infers `userStore`, and the
first `create` call on an environment lacking that model fails with the
unknown-model configuration error. -/
theorem inference_without_suffix_witness :
    BaseRepository.resolveModelName ⟨none, "UserStore"⟩ = "userStore"
    ∧ BaseRepository.create ⟨none, "UserStore"⟩ emptyEnv none 0
        = Except.error (unknownModelMessage ("userStore") ("UserStore")) := by
  have w := inference_without_suffix ("UserStore") (by decide)
  refine ⟨w.1.trans (by decide), ?_⟩
  exact (w.2 emptyEnv none 0 rfl).trans
    (congrArg (fun s => Except.error (unknownModelMessage s ("UserStore")))
      (show lowerFirst ("UserStore") = "userStore" by decide))

/-! ### Unit-of-work semantics

From `src/lib/context.ts` (runInTransaction, runInTransactionContext) and
`src/lib/decorators.ts` (Transactional). An operation passed to a unit of
work is a deferred computation modelled as a program that can return a value,
throw an error, issue a query through the resolver, or invoke
`runInTransaction` on a nested operation. The engine state tracks the
committed effects, the effects pending inside the currently open transaction,
and how many `$transaction` calls reached the engine. Per the engine contract
stated in the spec, `$transaction(cb)` commits the pending effects when `cb`
returns normally and rolls them back when `cb` throws, rethrowing the
original error.
-/

/-- A deferred operation. `query q k` issues query `q` through the resolved
client and continues with `k`; `runTx inner k` calls `runInTransaction` on
`inner` and passes its value to `k`. Values and errors are abstracted as
`Nat` and propagate unchanged. -/
inductive Prog where
  | ret (v : Nat)
  | throw (e : Nat)
  | query (q : Nat) (k : Prog)
  | runTx (inner : Prog) (k : Nat → Prog)

/-- The engine state: durable committed effects, effects pending in the
currently open transaction (empty when none is open), and the number of
transaction-open (`$transaction`) calls that reached the engine. -/
structure St where
  committed : List Nat
  pending : List Nat
  txOpens : Nat
deriving DecidableEq, Repr

/-- Execution of a program under an ambient context. A query resolves its
client at the moment of the call: with a transaction client installed it runs
inside the open transaction (pending), otherwise directly on the root client
(auto-committed). A `runTx` mirrors `runInTransaction` in `context.ts`: with
a transaction client already installed it runs the operation directly in the
ambient transaction; otherwise it calls the engine `$transaction`, running
the operation with the fresh transaction client installed, committing on
normal return and rolling back on error. -/
def exec : Option Nat → Prog → St → St × Except Nat Nat
  | _, Prog.ret v, s => (s, Except.ok v)
  | _, Prog.throw e, s => (s, Except.error e)
  | some t, Prog.query q k, s =>
    exec (some t) k ⟨s.committed, s.pending ++ [q], s.txOpens⟩
  | none, Prog.query q k, s =>
    exec none k ⟨s.committed ++ [q], s.pending, s.txOpens⟩
  | some t, Prog.runTx inner k, s =>
    match exec (some t) inner s with
    | (s₁, Except.ok v) => exec (some t) (k v) s₁
    | (s₁, Except.error e) => (s₁, Except.error e)
  | none, Prog.runTx inner k, s =>
    match exec (some s.txOpens) inner ⟨s.committed, [], s.txOpens + 1⟩ with
    | (s₁, Except.ok v) =>
      exec none (k v) ⟨s₁.committed ++ s₁.pending, [], s₁.txOpens⟩
    | (s₁, Except.error e) => (⟨s₁.committed, [], s₁.txOpens⟩, Except.error e)

/-- The engine primitive `rootPrismaClient.$transaction(cb)`: opens a
transaction (a fresh transaction client), runs `cb` with it, commits the
pending effects on normal return and rolls them back on error, rethrowing
the original error. -/
def prismaTransaction (cb : Prog) (s : St) : St × Except Nat Nat :=
  match exec (some s.txOpens) cb ⟨s.committed, [], s.txOpens + 1⟩ with
  | (s₁, Except.ok v) => (⟨s₁.committed ++ s₁.pending, [], s₁.txOpens⟩, Except.ok v)
  | (s₁, Except.error e) => (⟨s₁.committed, [], s₁.txOpens⟩, Except.error e)

/-- Source `runInTransactionContext` (`context.ts`): `prismaContext.run(tx,
callback)` — run the callback with `tx` installed as the ambient store. -/
def runInTransactionContext (t : Nat) (cb : Prog) (s : St) :
    St × Except Nat Nat :=
  exec (some t) cb s

/-- Source `runInTransaction` (`context.ts`): if `getTransactionClient()` is
set, run the callback in the existing ambient transaction; otherwise start a
transaction on the root client and run the callback with the new transaction
client installed. -/
def runInTransaction (ctx : Option Nat) (cb : Prog) (s : St) :
    St × Except Nat Nat :=
  match getTransactionClient ctx with
  | some existing => runInTransactionContext existing cb s
  | none => prismaTransaction cb s

/-- Source wrapped method body installed by `Transactional`
(`decorators.ts`): if `getTransactionClient()` is set, just run
`originalMethod.apply(this, args)`; otherwise
`rootPrismaClient.$transaction(tx => runInTransactionContext(tx, () =>
originalMethod.apply(this, args)))`. -/
def transactionalMethod {A B : Type} (original : A → B → Prog) (thisArg : A)
    (args : B) (ctx : Option Nat) (s : St) : St × Except Nat Nat :=
  match getTransactionClient ctx with
  | some t => exec (some t) (original thisArg args) s
  | none => prismaTransaction (original thisArg args) s

/-- Source `Transactional()` decoration step (`decorators.ts`): given the
descriptor value — `some` method whose result is a deferred computation
(`Prog`), the only member type the decorator's TS signature admits, or
`none` for any other member — it throws for `none` and otherwise replaces
the descriptor value with the wrapped method. -/
def Transactional {A B : Type} (descriptorValue : Option (A → B → Prog)) :
    Except String (A → B → Option Nat → St → St × Except Nat Nat) :=
  match descriptorValue with
  | none =>
    Except.error ("Transactional decorator can only be applied to methods.")
  | some original =>
    Except.ok (fun a b ctx s => transactionalMethod original a b ctx s)

/-- Execution with a transaction client installed never lets a
transaction-open call reach the engine, never touches the committed effects,
and leaves the open-transaction count unchanged. -/
theorem exec_some_preserves (p : Prog) : ∀ (t : Nat) (s : St),
    ((exec (some t) p s).1.txOpens = s.txOpens)
    ∧ (exec (some t) p s).1.committed = s.committed := by
  induction p with
  | ret v => intro t s; exact ⟨rfl, rfl⟩
  | throw e => intro t s; exact ⟨rfl, rfl⟩
  | query q k ih =>
    intro t s
    simpa [exec] using ih t ⟨s.committed, s.pending ++ [q], s.txOpens⟩
  | runTx inner k ih ihk =>
    intro t s
    simp only [exec]
    cases h : exec (some t) inner s with
    | mk s₁ r =>
      have hinner := ih t s
      rw [h] at hinner
      cases r with
      | ok v =>
        have hk := ihk v t s₁
        exact ⟨hk.1.trans hinner.1, hk.2.trans hinner.2⟩
      | error e => exact hinner

/-- C1: when a transaction client is already installed in the ambient
context, a unit-of-work entry point opens no new transaction: an already-
installed context makes any program (hence any nested chain of unit-of-work
entries) reach the engine with zero transaction-open calls,
`runInTransaction` just runs the callback in the existing ambient
transaction, a `Transactional`-wrapped method likewise leaves the open count
unchanged, and a top-level `runInTransaction` with no ambient transaction
causes exactly one transaction-open call for its whole nested call-tree. -/
theorem unitOfWork_flattening :
    (∀ (p : Prog) (t : Nat) (s : St),
        (exec (some t) p s).1.txOpens = s.txOpens)
    ∧ (∀ (t : Nat) (p : Prog) (s : St),
        runInTransaction (some t) p s = runInTransactionContext t p s)
    ∧ (∀ (A B : Type) (f : A → B → Prog) (a : A) (b : B) (t : Nat) (s : St),
        (transactionalMethod f a b (some t) s).1.txOpens = s.txOpens)
    ∧ (∀ (p : Prog) (s : St),
        (runInTransaction none p s).1.txOpens = s.txOpens + 1) := by
  refine ⟨fun p t s => (exec_some_preserves p t s).1, fun t p s => rfl,
    fun A B f a b t s => (exec_some_preserves (f a b) t s).1, fun p s => ?_⟩
  simp only [runInTransaction, getTransactionClient, prismaTransaction]
  cases h : exec (some s.txOpens) p ⟨s.committed, [], s.txOpens + 1⟩ with
  | mk s₁ r =>
    have hp := (exec_some_preserves p s.txOpens ⟨s.committed, [], s.txOpens + 1⟩).1
    rw [h] at hp
    cases r <;> simpa using hp

/-- C2: a `runInTransaction` call with no ambient transaction active rolls
the transaction back when the operation throws — the committed effects are
exactly those from before the call, so no query issued inside is observable —
and rejects with the original error unchanged; when the operation completes
normally it commits the pending effects and returns the operation's value
unchanged. -/
theorem runInTransaction_atomic (p : Prog) (s : St) :
    (∀ (s₁ : St) (e : Nat),
        exec (some s.txOpens) p ⟨s.committed, [], s.txOpens + 1⟩
            = (s₁, Except.error e) →
          runInTransaction none p s
              = (⟨s.committed, [], s.txOpens + 1⟩, Except.error e))
    ∧ (∀ (s₁ : St) (v : Nat),
        exec (some s.txOpens) p ⟨s.committed, [], s.txOpens + 1⟩
            = (s₁, Except.ok v) →
          runInTransaction none p s
              = (⟨s.committed ++ s₁.pending, [], s.txOpens + 1⟩, Except.ok v)) := by
  constructor
  · intro s₁ e h
    have hp := exec_some_preserves p s.txOpens ⟨s.committed, [], s.txOpens + 1⟩
    rw [h] at hp
    simp only [runInTransaction, getTransactionClient, prismaTransaction, h]
    rw [hp.1, hp.2]
  · intro s₁ v h
    have hp := exec_some_preserves p s.txOpens ⟨s.committed, [], s.txOpens + 1⟩
    rw [h] at hp
    simp only [runInTransaction, getTransactionClient, prismaTransaction, h]
    rw [hp.1, hp.2]

/-- Witness for C2: an operation that issues one query and then throws error
3 leaves the committed effects empty and rejects with error 3; an operation
that issues one query and returns 4 commits that query and returns 4. -/
theorem runInTransaction_atomic_witness :
    exec (some 0) (Prog.query 7 (Prog.throw 3)) ⟨[], [], 1⟩
        = (⟨[], [7], 1⟩, Except.error 3)
    ∧ runInTransaction none (Prog.query 7 (Prog.throw 3)) ⟨[], [], 0⟩
        = (⟨[], [], 1⟩, Except.error 3)
    ∧ runInTransaction none (Prog.query 7 (Prog.ret 4)) ⟨[], [], 0⟩
        = (⟨[7], [], 1⟩, Except.ok 4) := by
  refine ⟨rfl, ?_, ?_⟩
  · exact (runInTransaction_atomic (Prog.query 7 (Prog.throw 3)) ⟨[], [], 0⟩).1
      ⟨[], [7], 1⟩ 3 rfl
  · exact (runInTransaction_atomic (Prog.query 7 (Prog.ret 4)) ⟨[], [], 0⟩).2
      ⟨[], [7], 1⟩ 4 rfl

/-- C3: a `Transactional`-wrapped method call is behaviorally identical to
`runInTransaction(() => originalMethod.apply(this, args))`: for every
original method, `this`-binding, argument value, ambient context, and engine
state, both produce the same state and the same returned value or error, and
both run the original body applied to the same `this` and arguments under
the same ambient context. -/
theorem transactional_equals_runInTransaction {A B : Type}
    (original : A → B → Prog) (thisArg : A) (args : B) (ctx : Option Nat)
    (s : St) :
    transactionalMethod original thisArg args ctx s
      = runInTransaction ctx (original thisArg args) s := by
  cases ctx <;> rfl

/-- C9: the decoration step reports a usage error at decoration time when
applied to a member without a method value; a member whose result is not a
deferred computation is not admitted by the decorator's type at decoration
time, so only genuine deferred-returning methods are wrapped, and those are
accepted. -/
theorem transactional_rejects_non_methods :
    (@Transactional Unit Unit none
        = Except.error ("Transactional decorator can only be applied to methods."))
    ∧ ∀ (A B : Type) (f : A → B → Prog),
        Transactional (some f)
          = Except.ok (fun a b ctx s => transactionalMethod f a b ctx s) :=
  ⟨rfl, fun _ _ _ => rfl⟩

/-! ### Context-carrier scoping under concurrent interleaving

Modelled from the spec: the Context Carrier in `src/lib/context.ts` is
`new AsyncLocalStorage<Prisma.TransactionClient>()`, a Node.js runtime
primitive whose implementation is not under `src/`. The spec fixes its
contract: a per-call-tree scoped store — `runScoped` installs a value for
the dynamic extent of an operation including across asynchronous
suspension/resumption, inner scopes shadow outer ones, and concurrent
interleaved call-trees observe independent slots. The model below runs
several logical call-trees under an arbitrary interleaving schedule, each
with its own scope stack, exactly the per-call-tree store the contract
describes, and proves that reads (`getTransactionClient`) only ever observe
values the reading call-tree itself installed and that steps of other
call-trees leave a suspended call-tree's slot untouched.
-/

namespace Carrier

/-- One primitive action of a logical call-tree against its context slot:
enter a `prismaContext.run(c, ...)` scope, leave the innermost scope, or
read the store (`getTransactionClient`). -/
inductive Act where
  | push (c : Nat)
  | pop
  | read
deriving DecidableEq, Repr

/-- One logical call-tree: its remaining actions and its own context slot,
a stack of installed transaction clients, innermost first. -/
structure TaskState where
  code : List Act
  stack : List Nat
deriving DecidableEq, Repr

/-- Execute one action of one call-tree. The second component is `some v`
when the action was a read observing store value `v` (`none` meaning no
transaction client installed, so `getPrismaClient` would resolve to the
root client). -/
def stepTask : TaskState → TaskState × Option (Option Nat)
  | ⟨[], st⟩ => (⟨[], st⟩, none)
  | ⟨Act.push c :: r, st⟩ => (⟨r, c :: st⟩, none)
  | ⟨Act.pop :: r, st⟩ => (⟨r, st.tail⟩, none)
  | ⟨Act.read :: r, st⟩ => (⟨r, st⟩, some st.head?)

/-- The transaction clients a code sequence installs. -/
def pushes (code : List Act) : List Nat :=
  code.filterMap fun a =>
    match a with
    | Act.push c => some c
    | _ => none

/-- Run a pool of call-trees under an arbitrary interleaving schedule: the
schedule lists, step by step, the index of the call-tree that resumes, so
every asynchronous suspension/resumption pattern is some schedule. Returns
the final call-tree states and the observed reads tagged with the reading
call-tree. -/
def runSched : List TaskState → List Nat → List TaskState × List (Nat × Option Nat)
  | tasks, [] => (tasks, [])
  | tasks, i :: rest =>
    match tasks[i]? with
    | none => runSched tasks rest
    | some t =>
      match stepTask t with
      | (t₁, none) => runSched (tasks.set i t₁) rest
      | (t₁, some v) =>
        ((runSched (tasks.set i t₁) rest).1,
          (i, v) :: (runSched (tasks.set i t₁) rest).2)

/-- A step of a call-tree introduces no value into its slot or its future
installs that was not already among its installs or in its slot. -/
theorem stepTask_scope (t : TaskState) (v : Nat)
    (h : v ∈ pushes (stepTask t).1.code ∨ v ∈ (stepTask t).1.stack) :
    v ∈ pushes t.code ∨ v ∈ t.stack := by
  obtain ⟨code, st⟩ := t
  cases code with
  | nil => simpa [stepTask] using h
  | cons a r =>
    cases a with
    | push c =>
      simp only [stepTask, pushes, List.filterMap_cons, List.mem_cons] at h ⊢
      tauto
    | pop =>
      simp only [stepTask, pushes, List.filterMap_cons] at h ⊢
      rcases h with h | h
      · exact Or.inl h
      · exact Or.inr (List.mem_of_mem_tail h)
    | read =>
      simpa [stepTask, pushes, List.filterMap_cons] using h

/-- A step that produces a read observation reads the head of the task's
own slot and leaves the slot unchanged. -/
theorem stepTask_read (t t₁ : TaskState) (w : Option Nat)
    (h : stepTask t = (t₁, some w)) : w = t.stack.head? ∧ t₁.stack = t.stack := by
  obtain ⟨code, st⟩ := t
  cases code with
  | nil => simp [stepTask] at h
  | cons a r =>
    cases a with
    | push c => simp [stepTask] at h
    | pop => simp [stepTask] at h
    | read =>
      simp only [stepTask, Prod.mk.injEq, Option.some.injEq] at h
      exact ⟨h.2.symm, by rw [← h.1]⟩

/-- Equation: a schedule step naming no live task is skipped. -/
theorem runSched_cons_dead (tasks : List TaskState) (j : Nat)
    (rest : List Nat) (hj : tasks[j]? = none) :
    runSched tasks (j :: rest) = runSched tasks rest := by
  simp [runSched, hj]

/-- Equation: a silent step of task `j` updates its state and continues. -/
theorem runSched_cons_silent (tasks : List TaskState) (j : Nat)
    (rest : List Nat) (t t₁ : TaskState) (hj : tasks[j]? = some t)
    (hs : stepTask t = (t₁, none)) :
    runSched tasks (j :: rest) = runSched (tasks.set j t₁) rest := by
  simp [runSched, hj, hs]

/-- Equation: a read step of task `j` records its observation and
continues. -/
theorem runSched_cons_obs (tasks : List TaskState) (j : Nat)
    (rest : List Nat) (t t₁ : TaskState) (w : Option Nat)
    (hj : tasks[j]? = some t) (hs : stepTask t = (t₁, some w)) :
    runSched tasks (j :: rest)
      = ((runSched (tasks.set j t₁) rest).1,
          (j, w) :: (runSched (tasks.set j t₁) rest).2) := by
  simp [runSched, hj, hs]

/-- Every read observed by call-tree `i` under any interleaving comes from
call-tree `i`'s own initial state: its own installs or its own initial
slot. -/
theorem runSched_reads_own (sched : List Nat) :
    ∀ (tasks : List TaskState) (i v : Nat),
      (i, some v) ∈ (runSched tasks sched).2 →
      ∃ t, tasks[i]? = some t ∧ (v ∈ pushes t.code ∨ v ∈ t.stack) := by
  induction sched with
  | nil =>
    intro tasks i v h
    simp [runSched] at h
  | cons j rest ih =>
    intro tasks i v h
    cases hj : tasks[j]? with
    | none =>
      rw [runSched_cons_dead tasks j rest hj] at h
      exact ih tasks i v h
    | some t =>
      cases hs : stepTask t with
      | mk t₁ obs =>
        have transfer :
            (i, some v) ∈ (runSched (tasks.set j t₁) rest).2 →
            ∃ t', tasks[i]? = some t' ∧ (v ∈ pushes t'.code ∨ v ∈ t'.stack) := by
          intro hmem
          obtain ⟨t₂, ht₂, hv⟩ := ih (tasks.set j t₁) i v hmem
          by_cases hij : j = i
          · subst hij
            obtain ⟨hlt, -⟩ := List.getElem?_eq_some.1 hj
            rw [List.getElem?_set_self hlt] at ht₂
            have ht₁ : t₂ = t₁ := by
              injection ht₂ with h2
              exact h2.symm
            subst ht₁
            refine ⟨t, hj, stepTask_scope t v ?_⟩
            rw [hs]
            exact hv
          · rw [List.getElem?_set_ne hij] at ht₂
            exact ⟨t₂, ht₂, hv⟩
        cases obs with
        | none =>
          rw [runSched_cons_silent tasks j rest t t₁ hj hs] at h
          exact transfer h
        | some w =>
          rw [runSched_cons_obs tasks j rest t t₁ w hj hs] at h
          rcases List.mem_cons.1 h with heq | hmem
          · have hi : i = j := congrArg Prod.fst heq
            have hw : some v = w := congrArg Prod.snd heq
            subst hi
            obtain ⟨hw1, -⟩ := stepTask_read t t₁ w hs
            refine ⟨t, hj, Or.inr ?_⟩
            apply List.mem_of_mem_head?
            rw [← hw1, ← hw]
            exact Option.mem_def.2 rfl
          · exact transfer hmem

/-- Steps of other call-trees leave a call-tree's state untouched. -/
theorem runSched_other_tasks (sched : List Nat) :
    ∀ (tasks : List TaskState) (i : Nat), (∀ j ∈ sched, j ≠ i) →
      ((runSched tasks sched).1)[i]? = tasks[i]? := by
  induction sched with
  | nil => intro tasks i _; rfl
  | cons j rest ih =>
    intro tasks i h
    have hji : j ≠ i := h j (List.mem_cons_self j rest)
    have hrest : ∀ k ∈ rest, k ≠ i := fun k hk => h k (List.mem_cons_of_mem _ hk)
    cases hj : tasks[j]? with
    | none =>
      rw [runSched_cons_dead tasks j rest hj]
      exact ih tasks i hrest
    | some t =>
      cases hs : stepTask t with
      | mk t₁ obs =>
        cases obs with
        | none =>
          rw [runSched_cons_silent tasks j rest t t₁ hj hs]
          rw [ih (tasks.set j t₁) i hrest, List.getElem?_set_ne hji]
        | some w =>
          rw [runSched_cons_obs tasks j rest t t₁ w hj hs]
          rw [ih (tasks.set j t₁) i hrest, List.getElem?_set_ne hji]

/-- Running a concatenated schedule runs the two parts in sequence. -/
theorem runSched_append (s₁ : List Nat) :
    ∀ (tasks : List TaskState) (s₂ : List Nat),
      runSched tasks (s₁ ++ s₂)
        = ((runSched (runSched tasks s₁).1 s₂).1,
            (runSched tasks s₁).2 ++ (runSched (runSched tasks s₁).1 s₂).2) := by
  induction s₁ with
  | nil => intro tasks s₂; simp [runSched]
  | cons j rest ih =>
    intro tasks s₂
    rw [List.cons_append]
    cases hj : tasks[j]? with
    | none =>
      rw [runSched_cons_dead tasks j (rest ++ s₂) hj,
        runSched_cons_dead tasks j rest hj]
      exact ih tasks s₂
    | some t =>
      cases hs : stepTask t with
      | mk t₁ obs =>
        cases obs with
        | none =>
          rw [runSched_cons_silent tasks j (rest ++ s₂) t t₁ hj hs,
            runSched_cons_silent tasks j rest t t₁ hj hs]
          exact ih (tasks.set j t₁) s₂
        | some w =>
          rw [runSched_cons_obs tasks j (rest ++ s₂) t t₁ w hj hs,
            runSched_cons_obs tasks j rest t t₁ w hj hs,
            ih (tasks.set j t₁) s₂]
          simp

end Carrier

/-- C6: under every interleaving of logical call-trees over the carrier,
(1) a read (`getTransactionClient`, hence `getPrismaClient`) performed by
one call-tree only ever observes a transaction client that this same
call-tree installed (or started with) — another call-tree's active client is
never returned inside an unrelated call-tree; (2) steps of other call-trees
leave a suspended call-tree's slot and program untouched; and (3) a client
installed before an asynchronous suspension is still the one observed after
resumption: if a call-tree is about to read and only other call-trees run in
between, its eventual read observes the innermost value of its own slot from
before the suspension. -/
theorem carrier_isolation :
    (∀ (tasks : List Carrier.TaskState) (sched : List Nat) (i v : Nat),
        (i, some v) ∈ (Carrier.runSched tasks sched).2 →
        ∃ t, tasks[i]? = some t ∧ (v ∈ Carrier.pushes t.code ∨ v ∈ t.stack))
    ∧ (∀ (tasks : List Carrier.TaskState) (sched : List Nat) (i : Nat),
        (∀ j ∈ sched, j ≠ i) →
        ((Carrier.runSched tasks sched).1)[i]? = tasks[i]?)
    ∧ (∀ (tasks : List Carrier.TaskState) (sched : List Nat) (i : Nat)
        (r : List Carrier.Act) (st : List Nat),
        (∀ j ∈ sched, j ≠ i) →
        tasks[i]? = some ⟨Carrier.Act.read :: r, st⟩ →
        (Carrier.runSched tasks (sched ++ [i])).2
          = (Carrier.runSched tasks sched).2 ++ [(i, st.head?)]) := by
  refine ⟨fun tasks sched i v h => Carrier.runSched_reads_own sched tasks i v h,
    fun tasks sched i h => Carrier.runSched_other_tasks sched tasks i h,
    fun tasks sched i r st hsched hi => ?_⟩
  rw [Carrier.runSched_append]
  have hslot : ((Carrier.runSched tasks sched).1)[i]?
      = some (⟨Carrier.Act.read :: r, st⟩ : Carrier.TaskState) :=
    (Carrier.runSched_other_tasks sched tasks i hsched).trans hi
  simp [Carrier.runSched, hslot, Carrier.stepTask]

/-- Witness for C6: two concrete interleaved call-trees. Call-tree 0
installs client 7, is suspended while call-tree 1 runs, then reads; its read
observes 7, its own install, which indeed is among its installs (part 1);
call-tree 0's slot is untouched by a schedule running only call-tree 1
(part 2); and a call-tree about to read still observes its previously
installed client 5 after other call-trees ran in between (part 3). -/
theorem carrier_isolation_witness :
    (∃ t, ([⟨[Carrier.Act.push 7, Carrier.Act.read, Carrier.Act.pop], []⟩,
        ⟨[Carrier.Act.read], []⟩] :
          List Carrier.TaskState)[0]? = some t
      ∧ (7 ∈ Carrier.pushes t.code ∨ 7 ∈ t.stack))
    ∧ ((Carrier.runSched [⟨[Carrier.Act.push 7, Carrier.Act.read], []⟩,
        ⟨[Carrier.Act.read], []⟩] [1, 1, 1]).1)[0]?
        = some ⟨[Carrier.Act.push 7, Carrier.Act.read], []⟩
    ∧ (Carrier.runSched [⟨[Carrier.Act.read], [5]⟩,
        ⟨[Carrier.Act.push 9, Carrier.Act.read, Carrier.Act.pop], []⟩]
        ([1, 1, 1] ++ [0])).2
        = (Carrier.runSched [⟨[Carrier.Act.read], [5]⟩,
            ⟨[Carrier.Act.push 9, Carrier.Act.read, Carrier.Act.pop], []⟩]
            [1, 1, 1]).2 ++ [(0, ([5] : List Nat).head?)] := by
  refine ⟨carrier_isolation.1 _ [0, 1, 0, 0] 0 7 (by decide),
    carrier_isolation.2.1 _ [1, 1, 1] 0 (by decide), ?_⟩
  exact carrier_isolation.2.2 _ [1, 1, 1] 0 [] [5] (by decide) rfl

end RepositoryPrisma
